import Mathlib

/-!
Shallow embedding of `procesar_remisiones.py` (repository Vapo-cierre).

The script reads PDF remission documents, extracts sale-item lines with a
regular expression, looks product costs up in a fixed table, aggregates
per-document sales and profit, and writes an Excel report.

Modelling conventions:
* Python `str` operations (`upper`, `strip`, `re` character classes) are
  modelled at the ASCII level; `\s` is the ASCII whitespace class, `\d` is
  `'0'..'9'`.
* Python integers are `Nat` (parsed digit strings) and `Int` (money sums,
  profits may be negative).
* The filesystem is modelled as an explicit directory listing
  `List (String × PdfDoc)`; a `PdfDoc` records whether `pdfplumber.open`
  succeeds and the outcome of each `extract_text` call (`err` models an
  exception raised while reading that page).
* Console output is not modelled; writing the Excel file is modelled by
  returning `some salida`, and the early `return` (nothing processed) by
  `none`.
-/

/-- ASCII whitespace, the characters matched by Python's `\s` class
(and stripped by `str.strip`). -/
def pyWs (c : Char) : Bool :=
  c == ' ' || c == '\t' || c == '\n' || c == '\r' || c == '\x0b' || c == '\x0c'

/-- ASCII model of Python `str.upper` on one character. -/
def upperChar (c : Char) : Char :=
  if 97 ≤ c.toNat && c.toNat ≤ 122 then Char.ofNat (c.toNat - 32) else c

/-- ASCII model of Python `str.lower` on one character. -/
def lowerChar (c : Char) : Char :=
  if 65 ≤ c.toNat && c.toNat ≤ 90 then Char.ofNat (c.toNat + 32) else c

/-- Python `str.strip` on a character list: drop leading and trailing
whitespace. -/
def stripL (l : List Char) : List Char :=
  ((l.dropWhile pyWs).reverse.dropWhile pyWs).reverse

/-- One step of collapsing whitespace runs; the flag records whether the
previous character belonged to a whitespace run.  `collapseAux false`
is Python's `re.sub(r"\s+", " ", ·)`: every maximal run of whitespace
characters is replaced by a single space. -/
def collapseAux : Bool → List Char → List Char
  | _, [] => []
  | prevWs, c :: rest =>
    if pyWs c then
      if prevWs then collapseAux true rest else ' ' :: collapseAux true rest
    else c :: collapseAux false rest

/-- Python `re.sub(r"\s+", " ", ·)` on a character list. -/
def collapse (l : List Char) : List Char :=
  collapseAux false l

/-- Python `str.startswith` on character lists. -/
def esPrefijo : List Char → List Char → Bool
  | [], _ => true
  | _ :: _, [] => false
  | a :: as, b :: bs => a == b && esPrefijo as bs

/-- Python `str.endswith` on character lists. -/
def esSufijo (suf l : List Char) : Bool :=
  esPrefijo suf.reverse l.reverse

/-- Python string comparison (`<=`) by code points, used by `sorted`. -/
def leCadenaL : List Char → List Char → Bool
  | [], _ => true
  | _ :: _, [] => false
  | a :: as, b :: bs =>
    if a.toNat < b.toNat then true
    else if b.toNat < a.toNat then false
    else leCadenaL as bs

/-- Python `<=` on strings. -/
def leCadena (s t : String) : Bool :=
  leCadenaL s.toList t.toList

/-- Insert a string into a sorted list (ascending, by `leCadena`). -/
def insertarCadena (x : String) : List String → List String
  | [] => [x]
  | y :: ys => if leCadena x y then x :: y :: ys else y :: insertarCadena x ys

/-- Python `sorted` on a list of strings (insertion sort, ascending). -/
def ordenar : List String → List String
  | [] => []
  | x :: xs => insertarCadena x (ordenar xs)

/-- Tabla fija de costos `COSTOS` of the script, as an association list;
its keys are distinct, so `List.lookup` agrees with `dict.get`. -/
def COSTOS : List (String × Int) :=
  [("PRIV BAR", 13500), ("SPACEMAN", 10500), ("VELOCITY", 11000),
   ("CHRIS BROWN 15000", 11000), ("SOLARIS", 14500), ("DEATH ROW", 5000),
   ("DEATH ROW 5K", 4800), ("SNOOPYSMOKE", 9000), ("BUGATTI", 5000),
   ("MTRX25K", 11600), ("MTRX12K", 9300), ("MOVEMENT", 8300),
   ("LOST MARY", 5000), ("ORION BAR", 8300), ("IJOY", 14000),
   ("AIRFUZE", 13700), ("JUDO", 13500), ("VERA", 10300), ("CZAR", 8500),
   ("MINTOPIA", 8500), ("SNOOPY30K", 15000), ("SPACEMAN 20K", 12500),
   ("CONNECT", 16000), ("HELLO SYNIX", 18100), ("CAPSULA THC", 8800),
   ("EQUATOR", 15000), ("URANUS", 10500), ("BATERIA THC", 7500),
   ("LENTES", 7500), ("ELF THC", 24000), ("MOTI", 8500), ("HUKMANIA", 8000),
   ("YOVO", 8000), ("PULSE", 45000), ("AIRPODS", 28000), ("CRAZYACE", 0),
   ("ELFBARTE", 5500), ("AIRBAR", 7500), ("EASE", 5000), ("LIGHT RISE", 0),
   ("SMARTH TC", 13000), ("NOS KYLINBAR", 12500), ("NICKYJAM", 9000),
   ("FUMEDESTILADO", 21500)]

/-- Header/footer keyword list `LINEA_NO_ITEM_PREFIXES` of the script. -/
def LINEA_NO_ITEM_PREFIXES : List String :=
  ["SEÑOR", "SENOR", "DIRECCIÓN", "DIRECCION", "CIUDAD", "TELÉFONO",
   "TELEFONO", "FECHA", "REMISIÓN", "REMISION", "ÍTEM", "ITEM", "ELABORADO",
   "SUBTOTAL", "TOTAL", "NIT", "NO."]

/-- Source function `parse_entero`: strip every non-digit character
(`re.sub(r"[^\d]", "", ·)`) and parse the remaining digit string with
`int`; `None` when no digits remain.  `int` on a nonempty digit string
always succeeds, so the `ValueError` branch contributes nothing. -/
def parse_entero (valor_texto : String) : Option Nat :=
  let texto_limpio := valor_texto.toList.filter Char.isDigit
  if texto_limpio.isEmpty then none
  else some (texto_limpio.foldl (fun acc c => 10 * acc + (c.toNat - 48)) 0)

/-- Source function `normalizar_texto_producto`: uppercase, strip, then
collapse internal whitespace runs to a single space. -/
def normalizar_texto_producto (nombre : String) : String :=
  ⟨collapse (stripL (nombre.toList.map upperChar))⟩

/-- Character class `[\d\.,]` used for the two monetary captures of
`LINEA_ITEM_REGEX`. -/
def esNumTok (c : Char) : Bool :=
  c.isDigit || c == '.' || c == ','

/-- Matcher for the suffix `\$?(?P<p_unit>[\d\.,]+)\s+(?P<cant>\d+)\s+\S+\s+\$?(?P<total>[\d\.,]+)\s*$`
of `LINEA_ITEM_REGEX` at a fixed position.  Every quantifier here is
followed by a character class disjoint from its own, so Python's greedy
matching is equivalent to maximal munch and needs no backtracking. -/
def matchNums (r1 : List Char) : Option (String × String × String) :=
  let r2 := match r1 with | '$' :: t => t | _ => r1
  let p_unit := r2.takeWhile esNumTok
  let r3 := r2.dropWhile esNumTok
  if p_unit.isEmpty then none else
  let sp2 := r3.takeWhile pyWs
  let r4 := r3.dropWhile pyWs
  if sp2.isEmpty then none else
  let cant := r4.takeWhile Char.isDigit
  let r5 := r4.dropWhile Char.isDigit
  if cant.isEmpty then none else
  let sp3 := r5.takeWhile pyWs
  let r6 := r5.dropWhile pyWs
  if sp3.isEmpty then none else
  let desc := r6.takeWhile (fun c => !pyWs c)
  let r7 := r6.dropWhile (fun c => !pyWs c)
  if desc.isEmpty then none else
  let sp4 := r7.takeWhile pyWs
  let r8 := r7.dropWhile pyWs
  if sp4.isEmpty then none else
  let r9 := match r8 with | '$' :: t => t | _ => r8
  let total := r9.takeWhile esNumTok
  let r10 := r9.dropWhile esNumTok
  if total.isEmpty then none else
  if r10.all pyWs then some (⟨p_unit⟩, ⟨cant⟩, ⟨total⟩) else none

/-- Matcher for `\s+` followed by `matchNums`, the part of
`LINEA_ITEM_REGEX` that follows the product capture. -/
def matchCola (l : List Char) : Option (String × String × String) :=
  if (l.takeWhile pyWs).isEmpty then none
  else matchNums (l.dropWhile pyWs)

/-- Lazy search for the product capture `(?P<prod>.+?)`: extend the
product one character at a time (never across `'\n'`, which `.` cannot
match) and try `matchCola` after each extension.  `acc` holds the
product so far, reversed. -/
def matchProd (acc : List Char) : List Char → Option (String × String × String × String)
  | [] => none
  | c :: t =>
    if c = '\n' then none
    else
      match matchCola t with
      | some (p_unit, cant, total) => some (⟨(c :: acc).reverse⟩, p_unit, cant, total)
      | none => matchProd (c :: acc) t

/-- Full match of `LINEA_ITEM_REGEX` (`re.match`, so anchored at the
start; `\s*$` forces the end of the line).

Python's backtracking search explores, for a line whose maximal leading
whitespace run has length `k`: first the branch where `^\s*` takes all
`k` characters and the product starts at the first non-whitespace
character (the lazy loop `matchProd`); if that fails, shorter `^\s*`
choices put the product inside the whitespace run, and the first such
branch that can succeed takes the product to be the single whitespace
character at position `k - 2` (more precisely the last one there that is
not `'\n'`), with the numeric part of the pattern starting directly at
position `k`.  All remaining branches repeat already-failed suffix
tests, so the two branches below are exhaustive. -/
def lineaItemMatch (linea : String) : Option (String × String × String × String) :=
  let l := linea.toList
  let sp := l.takeWhile pyWs
  let cuerpo := l.dropWhile pyWs
  match matchProd [] cuerpo with
  | some r => some r
  | none =>
    match sp.dropLast.reverse.find? (fun c => c ≠ '\n'), matchNums cuerpo with
    | some c, some (p_unit, cant, total) => some (⟨[c]⟩, p_unit, cant, total)
    | _, _ => none

/-- Source function `es_linea_item`: a line is a candidate item line when
it contains `'$'`, its stripped uppercase form does not start with any
header/footer keyword, and `LINEA_ITEM_REGEX` matches it. -/
def es_linea_item (linea : String) : Bool :=
  if !(linea.toList.contains '$') then false
  else if LINEA_NO_ITEM_PREFIXES.any
      (fun p => esPrefijo p.toList ((stripL linea.toList).map upperChar)) then false
  else (lineaItemMatch linea).isSome

/-- One extracted raw item (the dictionary appended by
`extraer_items_desde_pdf`), with field names of the source. -/
structure RawItem where
  Producto : String
  Precio_Venta_Unitario : Nat
  Cantidad : Nat
  Total_Venta_Item : Nat
deriving DecidableEq, Repr

/-- The body of the per-line part of the extraction loop: classifier,
re-match, numeric conversion; `none` when the line contributes no item. -/
def itemsDeLinea (linea : String) : Option RawItem :=
  if es_linea_item linea then
    match lineaItemMatch linea with
    | none => none
    | some (prod, p_unit, cant, total) =>
      match parse_entero p_unit with
      | none => none
      | some precio_unitario =>
        match parse_entero cant with
        | none => none
        | some cantidad =>
          match parse_entero total with
          | none => none
          | some total_venta =>
              some ⟨⟨stripL prod.toList⟩, precio_unitario, cantidad, total_venta⟩
  else none

/-- Python `"...".split("\n")`. -/
def partirLineas : List Char → List (List Char)
  | [] => [[]]
  | c :: rest =>
    if c = '\n' then [] :: partirLineas rest
    else
      match partirLineas rest with
      | [] => [[c]]
      | l :: ls => (c :: l) :: ls

/-- Items extracted from the text of one page. -/
def extraerPagina (texto : String) : List RawItem :=
  (partirLineas texto.toList).filterMap (fun l => itemsDeLinea ⟨l⟩)

/-- Outcome of `pagina.extract_text()` for one page: a text (possibly
`None`, coerced to `""` by `or ""`), or an exception (`err`). -/
inductive PaginaPdf where
  | ok (texto : Option String)
  | err
deriving DecidableEq, Repr

/-- A PDF document as seen by the extractor: whether `pdfplumber.open`
succeeds, and the page outcomes in order. -/
structure PdfDoc where
  abreOk : Bool
  paginas : List PaginaPdf
deriving DecidableEq, Repr

/-- Page loop of `extraer_items_desde_pdf`: items accumulate page by
page; an exception while reading a page aborts the loop, keeping the
items gathered so far (the `except` clause only prints). -/
def extraerPaginas : List PaginaPdf → List RawItem
  | [] => []
  | PaginaPdf.err :: _ => []
  | PaginaPdf.ok t :: rest => extraerPagina (t.getD "") ++ extraerPaginas rest

/-- Source function `extraer_items_desde_pdf`: empty when the document
cannot be opened, otherwise the items of the pages read before the first
failure. -/
def extraer_items_desde_pdf (doc : PdfDoc) : List RawItem :=
  if doc.abreOk then extraerPaginas doc.paginas else []

/-- One row of the `Detalle_Items` sheet, with the column names of the
source; absent cost/profit (`None` in Python) is `none`. -/
structure DetalleRow where
  Remision : String
  Producto : String
  Cantidad : Nat
  Precio_Venta_Unitario : Nat
  Total_Venta_Item : Nat
  Costo_Unitario : Option Int
  Ganancia_Unidad : Option Int
  Ganancia_Item : Option Int
deriving DecidableEq, Repr

/-- One row of the `Resumen` sheet. -/
structure ResumenRow where
  Remision : String
  Total_Ventas_COP : Int
  Total_Ganancias_COP : Int
  Detalle_de_Items : String
deriving DecidableEq, Repr

/-- Python `set.add` on the list model of a set: sets are modelled as
duplicate-free lists, queried only through membership and `ordenar`. -/
def agregar (s : List String) (x : String) : List String :=
  if x ∈ s then s else s ++ [x]

/-- Accumulator of the per-item loop of `procesar_remisiones`:
`total_ventas_remision`, `total_ganancias_remision`,
`productos_en_remision`, the global `productos_desconocidos`, and the
rows appended to `detalle_items`. -/
structure EstadoItem where
  ventas : Int
  ganancias : Int
  productos : List String
  desconocidos : List String
  detalle : List DetalleRow
deriving DecidableEq, Repr

/-- The body of the per-item loop of `procesar_remisiones`. -/
def pasoItem (nombre_remision : String) (st : EstadoItem) (item : RawItem) : EstadoItem :=
  let producto_normalizado := normalizar_texto_producto item.Producto
  let costo_unitario := COSTOS.lookup producto_normalizado
  let precio : Int := item.Precio_Venta_Unitario
  let cantidad : Int := item.Cantidad
  let total : Int := item.Total_Venta_Item
  match costo_unitario with
  | some c =>
      let ganancia_unidad := precio - c
      let ganancia_item := ganancia_unidad * cantidad
      { ventas := st.ventas + total
        ganancias := st.ganancias + ganancia_item
        productos := agregar st.productos producto_normalizado
        desconocidos := st.desconocidos
        detalle := st.detalle ++
          [⟨nombre_remision, item.Producto, item.Cantidad, item.Precio_Venta_Unitario,
            item.Total_Venta_Item, some c, some ganancia_unidad, some ganancia_item⟩] }
  | none =>
      { ventas := st.ventas + total
        ganancias := st.ganancias
        productos := agregar st.productos producto_normalizado
        desconocidos := agregar st.desconocidos producto_normalizado
        detalle := st.detalle ++
          [⟨nombre_remision, item.Producto, item.Cantidad, item.Precio_Venta_Unitario,
            item.Total_Venta_Item, none, none, none⟩] }

/-- The per-item loop over the items of one document. -/
def procesarItems (nombre_remision : String) (items : List RawItem) (st : EstadoItem) : EstadoItem :=
  items.foldl (pasoItem nombre_remision) st

/-- Accumulator of the per-document loop: `resumen_remisiones`,
`detalle_items`, `productos_desconocidos`. -/
structure EstadoGlobal where
  resumen : List ResumenRow
  detalle : List DetalleRow
  desconocidos : List String
deriving DecidableEq, Repr

/-- Model of `os.path.splitext(nombre)[0]` for a plain file name: the
part before the last dot, where leading dots belong to the root. -/
def splitextBase (s : String) : String :=
  let l := s.toList
  let lead := l.takeWhile (· == '.')
  let resto := l.dropWhile (· == '.')
  if resto.contains '.' then
    ⟨lead ++ ((resto.reverse.dropWhile (· ≠ '.')).drop 1).reverse⟩
  else s

/-- The body of the per-document loop of `procesar_remisiones`: skip
files without the `.pdf` extension; skip documents yielding no items;
otherwise process all items and append one summary row. -/
def pasoArchivo (st : EstadoGlobal) (arch : String × PdfDoc) : EstadoGlobal :=
  if !(esSufijo ".pdf".toList (arch.1.toList.map lowerChar)) then st
  else
    let nombre_remision := splitextBase arch.1
    let items_pdf := extraer_items_desde_pdf arch.2
    if items_pdf.isEmpty then st
    else
      let r := procesarItems nombre_remision items_pdf
        ⟨0, 0, [], st.desconocidos, []⟩
      { resumen := st.resumen ++
          [⟨nombre_remision, r.ventas, r.ganancias,
            String.intercalate " + " (ordenar r.productos)⟩]
        detalle := st.detalle ++ r.detalle
        desconocidos := r.desconocidos }

/-- Insert a (file name, document) pair into a name-sorted list. -/
def insertarArchivo (x : String × PdfDoc) : List (String × PdfDoc) → List (String × PdfDoc)
  | [] => [x]
  | y :: ys => if leCadena x.1 y.1 then x :: y :: ys else y :: insertarArchivo x ys

/-- `sorted(os.listdir(...))`: the directory listing sorted by name. -/
def ordenarArchivos : List (String × PdfDoc) → List (String × PdfDoc)
  | [] => []
  | x :: xs => insertarArchivo x (ordenarArchivos xs)

/-- The three sheets written to the Excel file; `Pendientes` only
exists when some product has no cost. -/
structure Salida where
  resumen : List ResumenRow
  detalle : List DetalleRow
  pendientes : Option (List String)
deriving DecidableEq, Repr

/-- The per-document fold of `procesar_remisiones` starting from empty
accumulators. -/
def estadoFinal (archivos : List (String × PdfDoc)) : EstadoGlobal :=
  (ordenarArchivos archivos).foldl pasoArchivo ⟨[], [], []⟩

/-- The `TOTAL` row appended after the per-document rows. -/
def filaTotal (resumen : List ResumenRow) : ResumenRow :=
  let n := resumen.length
  ⟨s!"TOTAL ({n} remisiones)",
   (resumen.map ResumenRow.Total_Ventas_COP).sum,
   (resumen.map ResumenRow.Total_Ganancias_COP).sum,
   s!"{n} remisiones"⟩

/-- Source function `procesar_remisiones` on a directory listing:
`none` models the early return with no Excel file written; `some`
models the written workbook. -/
def procesar_remisiones (archivos : List (String × PdfDoc)) : Option Salida :=
  let st := estadoFinal archivos
  if st.resumen.isEmpty then none
  else
    some { resumen := st.resumen ++ [filaTotal st.resumen]
           detalle := st.detalle
           pendientes :=
             if st.desconocidos.isEmpty then none
             else some (ordenar st.desconocidos) }

/-! ## Claims -/

/-- C9: inside the extraction loop, a line accepted by `es_linea_item`
always re-matches `LINEA_ITEM_REGEX`; the skip branch guarded by a
failed re-match is unreachable. -/
theorem claim9_rematch_nunca_falla (linea : String)
    (h : es_linea_item linea = true) : (lineaItemMatch linea).isSome = true := by
  unfold es_linea_item at h
  split at h
  · exact absurd h (by simp)
  · split at h
    · exact absurd h (by simp)
    · exact h

/-- Witness for C9 at a concrete accepted line. -/
theorem claim9_witness : (lineaItemMatch "PRIV BAR $18.000 2 0 $36.000").isSome = true :=
  claim9_rematch_nunca_falla _ (by decide)

/-- C3: when any of the three numeric captures of a classifier-accepted,
pattern-matched line fails to parse, the line produces no record at
all. -/
theorem claim3_parse_falla_sin_registro (linea prod p_unit cant total : String)
    (h1 : es_linea_item linea = true)
    (h2 : lineaItemMatch linea = some (prod, p_unit, cant, total))
    (h3 : parse_entero p_unit = none ∨ parse_entero cant = none ∨
          parse_entero total = none) :
    itemsDeLinea linea = none := by
  unfold itemsDeLinea
  rw [h1, h2]
  dsimp only
  rcases h3 with h | h | h
  · rw [h]; rfl
  · rcases hp : parse_entero p_unit with _ | vp
    · rfl
    · rw [h]; rfl
  · rcases hp : parse_entero p_unit with _ | vp
    · rfl
    · rcases hc : parse_entero cant with _ | vc
      · rfl
      · rw [h]; rfl

/-- Witness for C3: a line whose unit-price capture `".,."` has no
digits, hence parses to `none`. -/
theorem claim3_witness : itemsDeLinea "X $.,. 2 0 $100" = none :=
  claim3_parse_falla_sin_registro _ "X" ".,." "2" "100"
    (by decide) (by decide) (Or.inl (by decide))

/-- C6: a document yielding zero items changes no accumulator (no
summary row, no detail rows, no unknown products) and the fold
continues with the remaining documents. -/
theorem claim6_doc_vacio_sin_efecto (nombre : String) (doc : PdfDoc)
    (st : EstadoGlobal) (resto : List (String × PdfDoc))
    (h : extraer_items_desde_pdf doc = []) :
    pasoArchivo st (nombre, doc) = st ∧
    List.foldl pasoArchivo st ((nombre, doc) :: resto) =
      List.foldl pasoArchivo st resto := by
  have h1 : pasoArchivo st (nombre, doc) = st := by
    unfold pasoArchivo
    split
    · rfl
    · simp [h]
  exact ⟨h1, by rw [List.foldl_cons, h1]⟩

/-- Witness for C6: a document with no pages yields no items and leaves
the accumulator untouched. -/
theorem claim6_witness :
    pasoArchivo ⟨[], [], []⟩ ("a.pdf", ⟨true, []⟩) = ⟨[], [], []⟩ ∧
    List.foldl pasoArchivo ⟨[], [], []⟩ [("a.pdf", ⟨true, []⟩)] =
      List.foldl pasoArchivo ⟨[], [], []⟩ [] :=
  claim6_doc_vacio_sin_efecto "a.pdf" ⟨true, []⟩ ⟨[], [], []⟩ [] (by decide)

/-- C7: when the per-document fold produces no summary row, the run
stops early and writes no output file. -/
theorem claim7_sin_resumen_sin_salida (archivos : List (String × PdfDoc))
    (h : (estadoFinal archivos).resumen = []) :
    procesar_remisiones archivos = none := by
  unfold procesar_remisiones
  simp [h]

/-- Witness for C7: an empty source directory. -/
theorem claim7_witness : procesar_remisiones [] = none :=
  claim7_sin_resumen_sin_salida [] (by decide)

/-- A document whose first page reads fine and yields one item, and
whose second page raises while being read. -/
def docLecturaParcial : PdfDoc :=
  ⟨true, [PaginaPdf.ok (some "PRIV BAR $18.000 2 0 $36.000"), PaginaPdf.err]⟩

/-- C2 counterexample: reading this document fails at the second page,
yet `extraer_items_desde_pdf` returns the item of the first page, not
an empty sequence — `items` already holds it when the exception is
caught. -/
theorem claim2_contraejemplo :
    extraer_items_desde_pdf docLecturaParcial = [⟨"PRIV BAR", 18000, 2, 36000⟩] := by
  decide

/-- C2 amended: when opening the document fails the extractor returns
an empty sequence; when reading fails partway through, it returns the
items of the pages read before the failure. -/
theorem claim2_fallo_devuelve_prefijo :
    (∀ paginas, extraer_items_desde_pdf ⟨false, paginas⟩ = []) ∧
    (∀ buenas resto, PaginaPdf.err ∉ buenas →
      extraer_items_desde_pdf ⟨true, buenas ++ PaginaPdf.err :: resto⟩ =
        extraer_items_desde_pdf ⟨true, buenas⟩) := by
  constructor
  · intro paginas; rfl
  · intro buenas resto h
    show extraerPaginas (buenas ++ PaginaPdf.err :: resto) = extraerPaginas buenas
    induction buenas with
    | nil => rfl
    | cons p bs ih =>
      have hp : p ≠ PaginaPdf.err := fun he => h (he ▸ List.mem_cons_self p bs)
      cases p with
      | err => exact absurd rfl hp
      | ok t =>
        have hbs : PaginaPdf.err ∉ bs := fun hm => h (List.mem_cons_of_mem _ hm)
        simp only [List.cons_append, extraerPaginas, List.append_eq, ih hbs]

/-- Witness for C2 (amended): one good page before the failing page. -/
theorem claim2_witness :
    extraer_items_desde_pdf
        ⟨true, [PaginaPdf.ok (some "PRIV BAR $18.000 2 0 $36.000"), PaginaPdf.err]⟩ =
      extraer_items_desde_pdf ⟨true, [PaginaPdf.ok (some "PRIV BAR $18.000 2 0 $36.000")]⟩ :=
  claim2_fallo_devuelve_prefijo.2 [PaginaPdf.ok (some "PRIV BAR $18.000 2 0 $36.000")]
    [] (by decide)

/-- Membership in the list model of `set.add`. -/
theorem mem_agregar (s : List String) (y x : String) :
    x ∈ agregar s y ↔ x ∈ s ∨ x = y := by
  unfold agregar
  split
  · rename_i hy
    constructor
    · exact Or.inl
    · rintro (h | rfl)
      · exact h
      · exact hy
  · simp [List.mem_append]

/-- Field-level description of one step of the per-item loop. -/
theorem pasoItem_campos (nombre : String) (st : EstadoItem) (it : RawItem) :
    (pasoItem nombre st it).ventas = st.ventas + (it.Total_Venta_Item : Int) ∧
    (pasoItem nombre st it).ganancias = st.ganancias +
      (if (COSTOS.lookup (normalizar_texto_producto it.Producto)).isSome then
          ((it.Precio_Venta_Unitario : Int) -
              (COSTOS.lookup (normalizar_texto_producto it.Producto)).getD 0) *
            (it.Cantidad : Int)
        else 0) ∧
    (pasoItem nombre st it).desconocidos =
      (if COSTOS.lookup (normalizar_texto_producto it.Producto) = none then
          agregar st.desconocidos (normalizar_texto_producto it.Producto)
        else st.desconocidos) := by
  unfold pasoItem
  dsimp only
  cases hc : COSTOS.lookup (normalizar_texto_producto it.Producto) with
  | none => exact ⟨rfl, by simp, by simp⟩
  | some c => exact ⟨rfl, by simp, by simp⟩

/-- C1: over the items of one document, sales accumulate the line total
of every item; profit accumulates `(unit price − unit cost) × quantity`
over exactly the items whose normalized name is in the cost table; and
the normalized name of every item without a cost entry is added to the
unknown-product set. -/
theorem claim1_totales_por_remision (nombre : String) (items : List RawItem)
    (st : EstadoItem) :
    (procesarItems nombre items st).ventas =
      st.ventas + (items.map (fun it => (it.Total_Venta_Item : Int))).sum ∧
    (procesarItems nombre items st).ganancias =
      st.ganancias +
        ((items.filter (fun it =>
              (COSTOS.lookup (normalizar_texto_producto it.Producto)).isSome)).map
            (fun it => ((it.Precio_Venta_Unitario : Int) -
                (COSTOS.lookup (normalizar_texto_producto it.Producto)).getD 0) *
              (it.Cantidad : Int))).sum ∧
    ∀ x, x ∈ (procesarItems nombre items st).desconocidos ↔
      x ∈ st.desconocidos ∨ ∃ it ∈ items,
        COSTOS.lookup (normalizar_texto_producto it.Producto) = none ∧
        x = normalizar_texto_producto it.Producto := by
  induction items generalizing st with
  | nil => simp [procesarItems]
  | cons it rest ih =>
    have hpaso := pasoItem_campos nombre st it
    have hfold : procesarItems nombre (it :: rest) st =
        procesarItems nombre rest (pasoItem nombre st it) := rfl
    obtain ⟨ihv, ihg, ihd⟩ := ih (pasoItem nombre st it)
    refine ⟨?_, ?_, ?_⟩
    · rw [hfold, ihv, hpaso.1]
      simp [add_assoc]
    · rw [hfold, ihg, hpaso.2.1]
      cases hc : COSTOS.lookup (normalizar_texto_producto it.Producto) with
      | none => simp [List.filter_cons, hc]
      | some c => simp [List.filter_cons, hc, add_assoc]
    · intro x
      rw [hfold, ihd x, hpaso.2.2]
      by_cases hc : COSTOS.lookup (normalizar_texto_producto it.Producto) = none
      · rw [if_pos hc]
        simp only [mem_agregar, List.mem_cons]
        constructor
        · rintro ((h | rfl) | ⟨j, hj, hlk, hx⟩)
          · exact Or.inl h
          · exact Or.inr ⟨it, Or.inl rfl, hc, rfl⟩
          · exact Or.inr ⟨j, Or.inr hj, hlk, hx⟩
        · rintro (h | ⟨j, hj | hj, hlk, hx⟩)
          · exact Or.inl (Or.inl h)
          · exact Or.inl (Or.inr (hj ▸ hx))
          · exact Or.inr ⟨j, hj, hlk, hx⟩
      · rw [if_neg hc]
        simp only [List.mem_cons]
        constructor
        · rintro (h | ⟨j, hj, hlk, hx⟩)
          · exact Or.inl h
          · exact Or.inr ⟨j, Or.inr hj, hlk, hx⟩
        · rintro (h | ⟨j, hj | hj, hlk, hx⟩)
          · exact Or.inl h
          · exact absurd (hj ▸ hlk) hc
          · exact Or.inr ⟨j, hj, hlk, hx⟩

/-- Crossing between `List.contains` and membership for characters. -/
theorem contains_mem_char (l : List Char) (c : Char) : l.contains c = true ↔ c ∈ l :=
  List.elem_iff

/-- C5: the classifier accepts a line exactly when it contains the
currency marker, its stripped uppercase form starts with no
header/footer keyword, and the item pattern matches; a line rejected by
the currency-marker or keyword filter never produces a record. -/
theorem claim5_filtros_clasificador (linea : String) :
    (es_linea_item linea = true ↔
      ('$' ∈ linea.toList ∧
        (∀ p ∈ LINEA_NO_ITEM_PREFIXES,
          esPrefijo p.toList ((stripL linea.toList).map upperChar) = false) ∧
        (lineaItemMatch linea).isSome = true)) ∧
    (('$' ∉ linea.toList ∨
        ∃ p ∈ LINEA_NO_ITEM_PREFIXES,
          esPrefijo p.toList ((stripL linea.toList).map upperChar) = true) →
      itemsDeLinea linea = none) := by
  have hdef : es_linea_item linea =
      if !(linea.toList.contains '$') then false
      else if LINEA_NO_ITEM_PREFIXES.any
          (fun p => esPrefijo p.toList ((stripL linea.toList).map upperChar)) then false
      else (lineaItemMatch linea).isSome := rfl
  constructor
  · rw [hdef]
    by_cases h1 : linea.toList.contains '$' = true
    · rw [if_neg (by rw [h1]; decide)]
      by_cases h2 : (LINEA_NO_ITEM_PREFIXES.any
          (fun p => esPrefijo p.toList ((stripL linea.toList).map upperChar))) = true
      · rw [if_pos h2]
        constructor
        · intro hf
          exact absurd hf (by simp)
        · rintro ⟨_, hall, _⟩
          obtain ⟨p, hp, hpref⟩ := List.any_eq_true.mp h2
          rw [hall p hp] at hpref
          exact absurd hpref (by simp)
      · rw [if_neg h2]
        constructor
        · intro h
          refine ⟨(contains_mem_char _ _).mp h1, ?_, h⟩
          intro p hp
          rcases hb : esPrefijo p.toList ((stripL linea.toList).map upperChar) with _ | _
          · rfl
          · exact absurd (List.any_eq_true.mpr ⟨p, hp, hb⟩) h2
        · intro h
          exact h.2.2
    · rw [if_pos (by rw [Bool.eq_false_iff.mpr h1]; decide)]
      constructor
      · intro hf
        exact absurd hf (by simp)
      · rintro ⟨hmem, _, _⟩
        exact absurd ((contains_mem_char _ _).mpr hmem) h1
  · intro hfail
    have hfalse : es_linea_item linea = false := by
      rw [hdef]
      by_cases h1 : linea.toList.contains '$' = true
      · rcases hfail with h | ⟨p, hp, hpref⟩
        · exact absurd ((contains_mem_char _ _).mp h1) h
        · rw [if_neg (by rw [h1]; decide), if_pos (List.any_eq_true.mpr ⟨p, hp, hpref⟩)]
      · rw [if_pos (by rw [Bool.eq_false_iff.mpr h1]; decide)]
    unfold itemsDeLinea
    rw [hfalse]
    rfl

/-- Witness for C5: a line with no currency marker produces no record. -/
theorem claim5_witness : itemsDeLinea "PRIV BAR 18.000 2 0 36.000" = none :=
  (claim5_filtros_clasificador "PRIV BAR 18.000 2 0 36.000").2 (Or.inl (by decide))

/-- An example document: one page whose text holds one known-product
line and one unknown-product line. -/
def docEjemplo : PdfDoc :=
  ⟨true, [PaginaPdf.ok (some "PRIV BAR $18.000 2 0 $36.000\nFOO $5.000 1 0 $5.000")]⟩

/-- C8: when at least one summary row exists, the output appends exactly
one TOTAL row after the per-document rows; its sales and profit are the
sums of the per-document rows and its label encodes the document
count. -/
theorem claim8_fila_total (archivos : List (String × PdfDoc))
    (h : (estadoFinal archivos).resumen ≠ []) :
    ∃ salida, procesar_remisiones archivos = some salida ∧
      salida.resumen =
        (estadoFinal archivos).resumen ++
          [⟨s!"TOTAL ({(estadoFinal archivos).resumen.length} remisiones)",
            ((estadoFinal archivos).resumen.map ResumenRow.Total_Ventas_COP).sum,
            ((estadoFinal archivos).resumen.map ResumenRow.Total_Ganancias_COP).sum,
            s!"{(estadoFinal archivos).resumen.length} remisiones"⟩] := by
  have hne : (estadoFinal archivos).resumen.isEmpty = false :=
    List.isEmpty_eq_false.mpr h
  unfold procesar_remisiones
  dsimp only
  rw [hne]
  exact ⟨_, rfl, rfl⟩

/-- An example directory listing: two one-page documents, each with one
known and one unknown product line. -/
def dirEjemplo : List (String × PdfDoc) :=
  [("r2.pdf", docEjemplo), ("r1.pdf", docEjemplo)]

/-- Witness for C8: two one-page documents, each with one known and one
unknown product line. -/
theorem claim8_witness :
    ∃ salida, procesar_remisiones dirEjemplo = some salida ∧
      salida.resumen =
        (estadoFinal dirEjemplo).resumen ++
          [⟨s!"TOTAL ({(estadoFinal dirEjemplo).resumen.length} remisiones)",
            ((estadoFinal dirEjemplo).resumen.map ResumenRow.Total_Ventas_COP).sum,
            ((estadoFinal dirEjemplo).resumen.map ResumenRow.Total_Ganancias_COP).sum,
            s!"{(estadoFinal dirEjemplo).resumen.length} remisiones"⟩] :=
  claim8_fila_total dirEjemplo (by decide)

/-- The digit-accumulating fold of `parse_entero` computes the value of
the digit string (most significant digit first). -/
theorem foldl_digitos (l : List Char) (a : Nat) :
    l.foldl (fun acc c => 10 * acc + (c.toNat - 48)) a =
      a * 10 ^ l.length + Nat.ofDigits 10 ((l.map (fun c => c.toNat - 48)).reverse) := by
  induction l generalizing a with
  | nil => simp [Nat.ofDigits]
  | cons c t ih =>
    simp only [List.foldl_cons, List.map_cons, List.reverse_cons, List.length_cons]
    rw [ih, Nat.ofDigits_append]
    simp [Nat.ofDigits]
    ring

/-- C4: `parse_entero` keeps exactly the decimal digits of its input, in
order, and returns their base-10 value (absent when no digit remains);
separators are never interpreted positionally, so
`parse_entero "$1.234,00" = 123400`. -/
theorem claim4_parse_entero_digitos :
    (∀ s : String,
      (parse_entero s = none ↔ s.toList.filter Char.isDigit = []) ∧
      (∀ n, parse_entero s = some n →
        n = Nat.ofDigits 10
          (((s.toList.filter Char.isDigit).map (fun c => c.toNat - 48)).reverse))) ∧
    parse_entero "$1.234,00" = some 123400 := by
  constructor
  · intro s
    constructor
    · unfold parse_entero
      dsimp only
      by_cases hd : (s.toList.filter Char.isDigit).isEmpty = true
      · rw [if_pos hd]
        exact iff_of_true rfl (by rwa [List.isEmpty_iff] at hd)
      · rw [if_neg hd]
        refine iff_of_false (by simp) (fun h => hd ?_)
        rw [List.isEmpty_iff]
        exact h
    · intro n hn
      unfold parse_entero at hn
      dsimp only at hn
      by_cases hd : (s.toList.filter Char.isDigit).isEmpty = true
      · rw [if_pos hd] at hn
        exact absurd hn (by simp)
      · rw [if_neg hd] at hn
        rw [← Option.some.inj hn, foldl_digitos]
        simp
  · decide

/-- Witness for C4: the spec's worked example, evaluated through the
claim itself. -/
theorem claim4_witness :
    (123400 : Nat) = Nat.ofDigits 10
      ((("$1.234,00".toList.filter Char.isDigit).map (fun c => c.toNat - 48)).reverse) :=
  (claim4_parse_entero_digitos.1 "$1.234,00").2 123400 claim4_parse_entero_digitos.2

/-- A valid scalar below the surrogate range round-trips through
`Char.ofNat`. -/
theorem toNat_ofNat_valid (n : Nat) (h : n.isValidChar) : (Char.ofNat n).toNat = n := by
  unfold Char.ofNat
  rw [dif_pos h]
  rfl

/-- Character equality is code-point equality. -/
theorem char_eq_iff_toNat (c d : Char) : c = d ↔ c.toNat = d.toNat :=
  ⟨fun h => h ▸ rfl, fun h => Char.ext (UInt32.ext h)⟩

/-- The whitespace class, phrased on code points. -/
theorem pyWs_iff (c : Char) :
    pyWs c = true ↔ (c.toNat = 32 ∨ c.toNat = 9 ∨ c.toNat = 10 ∨
      c.toNat = 13 ∨ c.toNat = 11 ∨ c.toNat = 12) := by
  unfold pyWs
  simp only [Bool.or_eq_true, beq_iff_eq, char_eq_iff_toNat,
    show (' ' : Char).toNat = 32 from rfl, show ('\t' : Char).toNat = 9 from rfl,
    show ('\n' : Char).toNat = 10 from rfl, show ('\r' : Char).toNat = 13 from rfl,
    show ('\x0b' : Char).toNat = 11 from rfl, show ('\x0c' : Char).toNat = 12 from rfl]
  tauto

/-- Uppercasing a character twice is the same as uppercasing once. -/
theorem upperChar_idem (c : Char) : upperChar (upperChar c) = upperChar c := by
  unfold upperChar
  by_cases h : (97 ≤ c.toNat && c.toNat ≤ 122) = true
  · rw [if_pos h]
    simp only [Bool.and_eq_true, decide_eq_true_eq] at h
    have ht : (Char.ofNat (c.toNat - 32)).toNat = c.toNat - 32 :=
      toNat_ofNat_valid _ (Or.inl (by omega))
    rw [if_neg]
    simp only [ht, Bool.and_eq_true, decide_eq_true_eq, not_and]
    omega
  · rw [if_neg h, if_neg h]

/-- Uppercasing does not change whitespace-ness. -/
theorem pyWs_upperChar (c : Char) : pyWs (upperChar c) = pyWs c := by
  unfold upperChar
  by_cases h : (97 ≤ c.toNat && c.toNat ≤ 122) = true
  · rw [if_pos h]
    simp only [Bool.and_eq_true, decide_eq_true_eq] at h
    have ht : (Char.ofNat (c.toNat - 32)).toNat = c.toNat - 32 :=
      toNat_ofNat_valid _ (Or.inl (by omega))
    have h1 : pyWs (Char.ofNat (c.toNat - 32)) = false := by
      rcases hb : pyWs (Char.ofNat (c.toNat - 32)) with _ | _
      · rfl
      · have := (pyWs_iff _).mp hb
        rw [ht] at this
        omega
    have h2 : pyWs c = false := by
      rcases hb : pyWs c with _ | _
      · rfl
      · have := (pyWs_iff _).mp hb
        omega
    rw [h1, h2]
  · rw [if_neg h]

/-- A list is dropWhile-fixed at a cons exactly when its head fails the
predicate. -/
theorem dwf_cons_iff (p : Char → Bool) (c : Char) (rest : List Char) :
    (c :: rest).dropWhile p = c :: rest ↔ p c = false := by
  rw [List.dropWhile_cons]
  constructor
  · intro h
    rcases hb : p c with _ | _
    · rfl
    · exfalso
      rw [hb, if_pos rfl] at h
      have hs := List.dropWhile_sublist (l := rest) p
      rw [h] at hs
      have := hs.length_le
      simp at this
  · intro h
    rw [h]
    simp

/-- dropWhile-fixedness of an append passes to the left part. -/
theorem dwf_append_left (p : Char → Bool) (xs ys : List Char)
    (h : (xs ++ ys).dropWhile p = xs ++ ys) : xs.dropWhile p = xs := by
  cases xs with
  | nil => rfl
  | cons d ds =>
    rw [List.cons_append, dwf_cons_iff] at h
    exact (dwf_cons_iff p d ds).mpr h

/-- The head of a dropWhile image fails the predicate. -/
theorem head_dropWhile_false (p : Char → Bool) (l : List Char) :
    ∀ c, (l.dropWhile p).head? = some c → p c = false := by
  induction l with
  | nil => intro c h; exact absurd h (by simp)
  | cons d ds ih =>
    intro c h
    rw [List.dropWhile_cons] at h
    by_cases hd : p d = true
    · rw [if_pos hd] at h
      exact ih c h
    · rw [if_neg hd] at h
      cases h
      exact Bool.eq_false_iff.mpr hd

/-- dropWhile is idempotent. -/
theorem dropWhile_idem (p : Char → Bool) (l : List Char) :
    (l.dropWhile p).dropWhile p = l.dropWhile p := by
  cases hd : l.dropWhile p with
  | nil => rfl
  | cons c rest =>
    have hc : p c = false := head_dropWhile_false p l c (by rw [hd]; rfl)
    exact (dwf_cons_iff p c rest).mpr hc

/-- Canonical form reached by strip-then-collapse: no whitespace other
than single internal `' '` characters.  The flag means "a space is not
allowed here" (start of the list, or just after a space). -/
def canonAux : List Char → Bool → Bool
  | [], _ => true
  | c :: rest, prevSp =>
    if c = ' ' then !prevSp && !rest.isEmpty && canonAux rest true
    else !pyWs c && canonAux rest false

/-- Collapsing does nothing on canonical lists. -/
theorem canon_collapse : ∀ (l : List Char) (sp : Bool),
    canonAux l sp = true → collapseAux sp l = l := by
  intro l
  induction l with
  | nil => intro sp _; rfl
  | cons c rest ih =>
    intro sp h
    unfold canonAux at h
    by_cases hc : c = ' '
    · subst hc
      rw [if_pos rfl] at h
      simp only [Bool.and_eq_true, Bool.not_eq_true'] at h
      obtain ⟨⟨hsp, hne⟩, hrest⟩ := h
      subst hsp
      unfold collapseAux
      rw [if_pos (by decide), if_neg (by decide)]
      rw [ih true hrest]
    · rw [if_neg hc] at h
      simp only [Bool.and_eq_true, Bool.not_eq_true'] at h
      obtain ⟨hw, hrest⟩ := h
      unfold collapseAux
      rw [if_neg (by rw [hw]; decide)]
      rw [ih false hrest]

/-- A canonical list (under the strict flag) starts with a non-space. -/
theorem canon_head (l : List Char) (h : canonAux l true = true) :
    l.dropWhile pyWs = l := by
  cases l with
  | nil => rfl
  | cons c rest =>
    unfold canonAux at h
    by_cases hc : c = ' '
    · rw [if_pos hc] at h
      simp at h
    · rw [if_neg hc] at h
      simp only [Bool.and_eq_true, Bool.not_eq_true'] at h
      exact (dwf_cons_iff pyWs c rest).mpr h.1

/-- A canonical list ends with a non-whitespace character. -/
theorem canon_last : ∀ (l : List Char) (sp : Bool), canonAux l sp = true →
    l.reverse.dropWhile pyWs = l.reverse := by
  intro l
  induction l with
  | nil => intro sp _; rfl
  | cons c rest ih =>
    intro sp h
    unfold canonAux at h
    rw [List.reverse_cons]
    by_cases hc : c = ' '
    · rw [if_pos hc] at h
      simp only [Bool.and_eq_true, Bool.not_eq_true'] at h
      obtain ⟨⟨hsp, hne⟩, hrest⟩ := h
      have hfix := ih true hrest
      cases hrev : rest.reverse with
      | nil =>
        rw [List.reverse_eq_nil_iff] at hrev
        rw [hrev] at hne
        exact absurd hne (by simp)
      | cons d ds =>
        rw [hrev] at hfix
        have hd : pyWs d = false := (dwf_cons_iff pyWs d ds).mp hfix
        exact (dwf_cons_iff pyWs d (ds ++ [c])).mpr hd
    · rw [if_neg hc] at h
      simp only [Bool.and_eq_true, Bool.not_eq_true'] at h
      obtain ⟨hw, hrest⟩ := h
      cases hrev : rest.reverse with
      | nil =>
        simp only [hrev, List.nil_append]
        exact (dwf_cons_iff pyWs c []).mpr hw
      | cons d ds =>
        have hfix := ih false hrest
        rw [hrev] at hfix
        have hd : pyWs d = false := (dwf_cons_iff pyWs d ds).mp hfix
        exact (dwf_cons_iff pyWs d (ds ++ [c])).mpr hd

/-- Stripping does nothing on canonical lists. -/
theorem canon_strip (l : List Char) (h : canonAux l true = true) :
    stripL l = l := by
  unfold stripL
  rw [canon_head l h, canon_last l true h, List.reverse_reverse]

/-- The strict canonical flag implies the relaxed one. -/
theorem canon_relax (l : List Char) (h : canonAux l true = true) :
    canonAux l false = true := by
  cases l with
  | nil => rfl
  | cons c rest =>
    unfold canonAux at h ⊢
    by_cases hc : c = ' '
    · rw [if_pos hc] at h
      simp at h
    · rwa [if_neg hc] at h ⊢

/-- Unfolding lemma for `collapseAux` at a cons cell. -/
theorem collapseAux_cons (b : Bool) (c : Char) (rest : List Char) :
    collapseAux b (c :: rest) =
      if pyWs c then (if b then collapseAux true rest else ' ' :: collapseAux true rest)
      else c :: collapseAux false rest := rfl

/-- Collapsing a nonempty list that ends in non-whitespace is nonempty. -/
theorem collapse_ne_nil : ∀ (m : List Char) (b : Bool),
    m.reverse.dropWhile pyWs = m.reverse → m ≠ [] → collapseAux b m ≠ [] := by
  intro m
  induction m with
  | nil => intro b _ h; exact absurd rfl h
  | cons c rest ih =>
    intro b hlast _
    by_cases hw : pyWs c = true
    · have hrest_ne : rest ≠ [] := by
        intro hr
        subst hr
        simp only [List.reverse_cons, List.reverse_nil, List.nil_append] at hlast
        have := (dwf_cons_iff pyWs c []).mp hlast
        rw [hw] at this
        exact absurd this (by simp)
      have hlast_rest : rest.reverse.dropWhile pyWs = rest.reverse := by
        rw [List.reverse_cons] at hlast
        exact dwf_append_left pyWs rest.reverse [c] hlast
      unfold collapseAux
      rw [if_pos hw]
      cases b with
      | true => rw [if_pos rfl]; exact ih true hlast_rest hrest_ne
      | false => rw [if_neg (by decide)]; simp
    · unfold collapseAux
      rw [if_neg hw]
      simp

/-- Collapsing a list that ends in non-whitespace yields a canonical
list; under the strict flag this additionally needs a non-whitespace
head. -/
theorem collapse_canon : ∀ (m : List Char),
    m.reverse.dropWhile pyWs = m.reverse →
    (canonAux (collapseAux true m) true = true ∧
     canonAux (collapseAux false m) false = true ∧
     (m.dropWhile pyWs = m → canonAux (collapseAux false m) true = true)) := by
  intro m
  induction m with
  | nil => exact fun _ => ⟨rfl, rfl, fun _ => rfl⟩
  | cons c rest ih =>
    intro hlast
    by_cases hw : pyWs c = true
    · have hrest_ne : rest ≠ [] := by
        intro hr
        subst hr
        simp only [List.reverse_cons, List.reverse_nil, List.nil_append] at hlast
        have := (dwf_cons_iff pyWs c []).mp hlast
        rw [hw] at this
        exact absurd this (by simp)
      have hlast_rest : rest.reverse.dropWhile pyWs = rest.reverse := by
        rw [List.reverse_cons] at hlast
        exact dwf_append_left pyWs rest.reverse [c] hlast
      obtain ⟨g1, g2, _⟩ := ih hlast_rest
      have hcoll_t : collapseAux true (c :: rest) = collapseAux true rest := by
        rw [collapseAux_cons, if_pos hw, if_pos rfl]
      have hcoll_f : collapseAux false (c :: rest) = ' ' :: collapseAux true rest := by
        rw [collapseAux_cons, if_pos hw, if_neg (by decide)]
      refine ⟨?_, ?_, ?_⟩
      · rw [hcoll_t]; exact g1
      · rw [hcoll_f]
        unfold canonAux
        rw [if_pos rfl]
        have hne := collapse_ne_nil rest true hlast_rest hrest_ne
        simp [g1, List.isEmpty_eq_false.mpr hne]
      · intro hfix
        have := (dwf_cons_iff pyWs c rest).mp hfix
        rw [hw] at this
        exact absurd this (by simp)
    · have hlast_rest : rest.reverse.dropWhile pyWs = rest.reverse := by
        rw [List.reverse_cons] at hlast
        exact dwf_append_left pyWs rest.reverse [c] hlast
      have hcoll : ∀ b, collapseAux b (c :: rest) = c :: collapseAux false rest := by
        intro b
        rw [collapseAux_cons, if_neg hw]
      have hc_ne_sp : c ≠ ' ' := by
        intro hcs
        subst hcs
        exact hw (by decide)
      have htail : canonAux (collapseAux false rest) false = true := (ih hlast_rest).2.1
      have hcanon : ∀ sp, canonAux (c :: collapseAux false rest) sp = true := by
        intro sp
        unfold canonAux
        rw [if_neg hc_ne_sp]
        simp [htail, Bool.eq_false_iff.mpr hw]
      exact ⟨by rw [hcoll true]; exact hcanon true,
             by rw [hcoll false]; exact hcanon false,
             fun _ => by rw [hcoll false]; exact hcanon true⟩

/-- Every character of a collapsed list is a space or comes from the
input. -/
theorem mem_collapseAux : ∀ (m : List Char) (b : Bool) (c : Char),
    c ∈ collapseAux b m → c = ' ' ∨ c ∈ m := by
  intro m
  induction m with
  | nil => intro b c h; exact absurd h (by simp [collapseAux])
  | cons d rest ih =>
    intro b c h
    unfold collapseAux at h
    by_cases hw : pyWs d = true
    · rw [if_pos hw] at h
      cases b with
      | true =>
        rw [if_pos rfl] at h
        rcases ih true c h with h1 | h1
        · exact Or.inl h1
        · exact Or.inr (List.mem_cons_of_mem d h1)
      | false =>
        rw [if_neg (by decide)] at h
        rcases List.mem_cons.mp h with rfl | h1
        · exact Or.inl rfl
        · rcases ih true c h1 with h2 | h2
          · exact Or.inl h2
          · exact Or.inr (List.mem_cons_of_mem d h2)
    · rw [if_neg hw] at h
      rcases List.mem_cons.mp h with rfl | h1
      · exact Or.inr (List.mem_cons_self _ _)
      · rcases ih false c h1 with h2 | h2
        · exact Or.inl h2
        · exact Or.inr (List.mem_cons_of_mem d h2)

/-- Every character of a stripped list comes from the input. -/
theorem mem_stripL (l : List Char) (c : Char) (h : c ∈ stripL l) : c ∈ l := by
  unfold stripL at h
  rw [List.mem_reverse] at h
  have h1 : c ∈ (l.dropWhile pyWs).reverse := (List.dropWhile_sublist pyWs).subset h
  rw [List.mem_reverse] at h1
  exact (List.dropWhile_sublist pyWs).subset h1

/-- Mapping a function that fixes every element of a list is the
identity on it. -/
theorem map_upper_fijos : ∀ l : List Char,
    (∀ c ∈ l, upperChar c = c) → l.map upperChar = l := by
  intro l
  induction l with
  | nil => intro _; rfl
  | cons c rest ih =>
    intro h
    rw [List.map_cons, h c (List.mem_cons_self _ _),
      ih (fun d hd => h d (List.mem_cons_of_mem c hd))]

/-- A stripped list has no trailing whitespace. -/
theorem stripL_last (l : List Char) :
    (stripL l).reverse.dropWhile pyWs = (stripL l).reverse := by
  unfold stripL
  rw [List.reverse_reverse]
  exact dropWhile_idem pyWs _

/-- A stripped list has no leading whitespace. -/
theorem stripL_head (l : List Char) : (stripL l).dropWhile pyWs = stripL l := by
  show ((l.dropWhile pyWs).reverse.dropWhile pyWs).reverse.dropWhile pyWs =
    ((l.dropWhile pyWs).reverse.dropWhile pyWs).reverse
  cases hvr : ((l.dropWhile pyWs).reverse.dropWhile pyWs).reverse with
  | nil => rfl
  | cons e es =>
    have hgl : ((l.dropWhile pyWs).reverse.dropWhile pyWs).getLast? = some e := by
      rw [← List.head?_reverse, hvr]
      rfl
    have hor : (l.dropWhile pyWs).reverse.getLast? = some e := by
      conv_lhs => rw [← List.takeWhile_append_dropWhile pyWs (l.dropWhile pyWs).reverse]
      rw [List.getLast?_append, hgl]
      rfl
    have hhd : (l.dropWhile pyWs).head? = some e := by
      have h2 := List.head?_reverse (l.dropWhile pyWs).reverse
      rw [List.reverse_reverse] at h2
      rw [h2, hor]
    have he : pyWs e = false := head_dropWhile_false pyWs l e hhd
    exact (dwf_cons_iff pyWs e es).mpr he

/-- Idempotence of the normalization pipeline at the character-list
level. -/
theorem normList_idem (l : List Char) :
    collapse (stripL ((collapse (stripL (l.map upperChar))).map upperChar)) =
      collapse (stripL (l.map upperChar)) := by
  have hfix : ∀ c ∈ collapse (stripL (l.map upperChar)), upperChar c = c := by
    intro c hc
    rcases mem_collapseAux _ _ _ hc with h1 | h1
    · subst h1; decide
    · have h2 := mem_stripL _ _ h1
      obtain ⟨d, _, rfl⟩ := List.mem_map.mp h2
      exact upperChar_idem d
  rw [map_upper_fijos _ hfix]
  have hcanon : canonAux (collapse (stripL (l.map upperChar))) true = true :=
    (collapse_canon _ (stripL_last (l.map upperChar))).2.2 (stripL_head (l.map upperChar))
  show collapse (stripL (collapse (stripL (l.map upperChar)))) = _
  rw [canon_strip _ hcanon]
  exact canon_collapse _ false (canon_relax _ hcanon)

/-- C10: product-name normalization is idempotent, so every value used
for cost lookup, the unknown-product set, and the distinct-products
join is already in normal form. -/
theorem claim10_normalizar_idempotente (s : String) :
    normalizar_texto_producto (normalizar_texto_producto s) =
      normalizar_texto_producto s := by
  unfold normalizar_texto_producto
  exact congrArg String.mk (normList_idem s.toList)
